import Mathlib

/-!
# Verification of the nftmintalert log-aggregation and announcement pipeline

Shallow embedding of the Go sources (package `main`, `processLogs` and its
helpers, plus the small parts of package `opensea` the pipeline consumes).
Pure data flow is translated directly; the external collaborators (blockchain
RPC, marketplace API, Discord, Twitter, blob store) appear as explicit
oracle parameters, so every definition is executable.
-/

namespace NftMintAlert

/-! ## Constants (main.go) -/

def contractAddressOpenSea : String := "0x7Be8076f4EA4A4AD08075C2508e481d6C946D12b"

def contractENS : String := "0x283Af0B28c62C092C9727F1Ee09c02CA627EB7F5"

def contractENS2 : String := "0x57f1887a8BF19b14fC0dF6Fd9B2acc9Af147eA85"

def nullAddress : String := "0x0000000000000000000000000000000000000000"

def topicTransfer : String := "0xddf252ad1be2c89b69c2b068fc378daa952ba7f163c4a11628f55a4df523b3ef"

/-! ## Data model -/

/-- One blockchain event record (`types.Log`), restricted to the fields the
pipeline reads: contract address, ordered topic hashes, transaction hash and
block number. Addresses, hashes and topics are their hex renderings. -/
structure LogEntry where
  address : String
  topics : List String
  txHash : String
  blockNumber : Nat
deriving DecidableEq, Repr

/-- The slice of `opensea.OpenSeaCollection` the announcement path reads:
the top-level `ExternalLink` field and the nested `Collection.TwitterUsername`
field (plus nothing else that decides control flow). -/
structure OpenSeaCollection where
  externalLink : String
  twitterUsername : String
deriving DecidableEq, Repr

/-- The persisted `Status` blob: the ordered list of already-announced
contract addresses (`recents`). -/
structure Status where
  recents : List String
deriving DecidableEq, Repr

structure TwitterKeys where
  consumerKey : String
  consumerSecret : String
  token : String
  tokenSecret : String
deriving DecidableEq, Repr

/-! ## Deduplicator

`processLogs` builds `transList` by walking the raw logs and keeping an entry
only when its transaction hash has not been seen (`transHashList` is a
map used as a set; only membership is consulted, so it is modelled as the
list of seen hashes). -/

def uniqueTransactions : List LogEntry → List String → List LogEntry
  | [], _ => []
  | vLog :: rest, seen =>
    if vLog.txHash ∈ seen then uniqueTransactions rest seen
    else vLog :: uniqueTransactions rest (vLog.txHash :: seen)

/-- The Deduplicator: the walk starts with nothing seen. -/
def deduplicate (logs : List LogEntry) : List LogEntry :=
  uniqueTransactions logs []

/-! ## Mint Filter

The guard chain of the per-transaction loop in `processLogs`: skip entries
whose first topic is not the transfer signature, entries with fewer than 4
topics (ERC-20 style transfers), entries from the OpenSea or ENS contracts,
and finally keep only entries whose decoded `from` address is the null
address. `decodeFrom` stands for `common.BytesToAddress(topic).Hex()`, the
geth decoding of a 32-byte topic into an address string. The Go code indexes
`Topics[0]` and `Topics[1]` directly (the upstream filtered query guarantees
at least one topic, and the length guard runs before `Topics[1]` is read);
`headD`/`get?` with a `""` default agree with it on all such inputs. -/

def mintKeep (decodeFrom : String → String) (txLog : LogEntry) : Bool :=
  if ¬(txLog.topics.headD "" = topicTransfer) then false
  else if txLog.topics.length < 4 then false
  else if txLog.address = contractAddressOpenSea ∨ txLog.address = contractENS ∨
      txLog.address = contractENS2 then false
  else decodeFrom ((txLog.topics.get? 1).getD "") == nullAddress

def mintFilter (decodeFrom : String → String) (logs : List LogEntry) : List LogEntry :=
  logs.filter (mintKeep decodeFrom)

/-! ## Aggregator

`addressList` is a `map[string]int`; each retained entry increments its
contract's count (`count, _ := addressList[address]; count++`). The map is
modelled as an association list with unique keys. -/

def bumpCount : List (String × Nat) → String → List (String × Nat)
  | [], address => [(address, 1)]
  | (k, v) :: rest, address =>
    if k = address then (k, v + 1) :: rest else (k, v) :: bumpCount rest address

/-- The counting loop as the source runs it: one pass over the deduplicated
entries, bumping the count of every entry that survives the guard chain. -/
def countMintsGo (decodeFrom : String → String) :
    List LogEntry → List (String × Nat) → List (String × Nat)
  | [], acc => acc
  | l :: rest, acc =>
    if mintKeep decodeFrom l then countMintsGo decodeFrom rest (bumpCount acc l.address)
    else countMintsGo decodeFrom rest acc

def countMints (decodeFrom : String → String) (logs : List LogEntry) : List (String × Nat) :=
  countMintsGo decodeFrom logs []

/-! ## Ranker (`rankByWordCount`)

The source copies the map into a `PairList` and runs `sort.Sort(sort.Reverse(pl))`
with `Less i j = pl[i].Value < pl[j].Value`: a (not necessarily stable) sort
into non-increasing order of `Value`. It is modelled by insertion sort under
the reflexive total order `countGE`; ties have no specified order in the
source (the map's iteration order is itself unspecified), and every theorem
below depends only on sortedness and on the multiset of pairs. -/

def countGE (p q : String × Nat) : Prop := q.2 ≤ p.2

instance : DecidableRel countGE := fun p q => Nat.decLe q.2 p.2

instance : IsTotal (String × Nat) countGE := ⟨fun p q => Nat.le_total q.2 p.2⟩

instance : IsTrans (String × Nat) countGE := ⟨fun _ _ _ h1 h2 => Nat.le_trans h2 h1⟩

def rankByWordCount (wordFrequencies : List (String × Nat)) : List (String × Nat) :=
  List.insertionSort countGE wordFrequencies

/-- Sum of the per-contract counts of an association list. -/
def sumCounts (l : List (String × Nat)) : Nat := (l.map Prod.snd).sum

/-! ## Callout Decision (`callOut`)

Rejects the second ENS contract outright, then rejects collections with
neither an external link nor a Twitter handle. `count` is only logged. -/

def callOut (collection : OpenSeaCollection) (address : String) (count : Nat) : Bool :=
  if address = contractENS2 then false
  else if collection.externalLink.length = 0 ∧ collection.twitterUsername.length = 0 then false
  else true

/-! ## Notifiers

Each sender is a pure function of its configuration and of the success of the
network calls it makes; its value is the control-flow outcome of the Go
function. `sendTweetV2` logs every failure and falls through — it has no
aborting outcome. `sendDiscordWebhook` logs and returns on every failure
before `wa.Execute`, but calls `panic(err)` when `wa.Execute` itself fails:
that outcome crashes the invocation. -/

inductive TweetOutcome
  | missingConsumerKey
  | missingConsumerSecret
  | missingToken
  | missingTokenSecret
  | sendError
  | sent
deriving DecidableEq, Repr

def sendTweetV2 (twitKey : TwitterKeys) (createTweetOk : Bool) : TweetOutcome :=
  if twitKey.consumerKey = "" then TweetOutcome.missingConsumerKey
  else if twitKey.consumerSecret = "" then TweetOutcome.missingConsumerSecret
  else if twitKey.token = "" then TweetOutcome.missingToken
  else if twitKey.tokenSecret = "" then TweetOutcome.missingTokenSecret
  else if createTweetOk then TweetOutcome.sent
  else TweetOutcome.sendError

inductive DiscordOutcome
  | notConfigured
  | invalidId
  | apiError
  | getError
  | panicked
  | sent
deriving DecidableEq, Repr

/-- `parseOk` is the success of `strconv.ParseInt(webhookId, 10, 64)`,
`newApiOk` of `discordhook.NewWebhookAPI`, `getOk` of `wa.Get`, and `execOk`
of `wa.Execute` (whose failure the source handles with `panic(err)`). -/
def sendDiscordWebhook (webhookId webhookToken : String)
    (parseOk newApiOk getOk execOk : Bool) : DiscordOutcome :=
  if webhookId = "" ∨ webhookToken = "" then DiscordOutcome.notConfigured
  else if ¬parseOk then DiscordOutcome.invalidId
  else if ¬newApiOk then DiscordOutcome.apiError
  else if ¬getOk then DiscordOutcome.getError
  else if ¬execOk then DiscordOutcome.panicked
  else DiscordOutcome.sent

/-! ## Announcement Gate

The `for index, mint := range mintlist` loop of `processLogs`. Oracles:
`fetch` is `osclient.AssetContract` (`none` = error, which the source answers
with `return`, leaving `processLogs` before the final save), and `discord`
gives the outcome of the `sendDiscordWebhook` call for a contract (a
`panicked` outcome crashes the invocation mid-loop). The tweet send's result
is never inspected, so it does not appear; the addresses for which the
notification pair was attempted are recorded in `notified`. -/

def alreadyPosted (recents : List String) (key : String) : Bool :=
  recents.any fun recent => ¬(recent = "") ∧ key = recent

inductive LoopExit
  | done
  | fetchAbort (addr : String)
  | discordPanic (addr : String)
deriving DecidableEq, Repr

structure LoopOut where
  recents : List String
  notified : List String
  exit : LoopExit
deriving DecidableEq, Repr

def announceLoop (fetch : String → Option OpenSeaCollection)
    (discord : String → DiscordOutcome) (recents notified : List String) :
    List (String × Nat) → LoopOut
  | [] => ⟨recents, notified, LoopExit.done⟩
  | (key, value) :: rest =>
    if 100 < value then
      if alreadyPosted recents key then
        announceLoop fetch discord recents notified rest
      else
        match fetch key with
        | none => ⟨recents, notified, LoopExit.fetchAbort key⟩
        | some collection =>
          if callOut collection key value then
            if discord key = DiscordOutcome.panicked then
              ⟨recents, notified ++ [key], LoopExit.discordPanic key⟩
            else
              announceLoop fetch discord (recents ++ [key]) (notified ++ [key]) rest
          else
            announceLoop fetch discord recents notified rest
    else
      announceLoop fetch discord recents notified rest

/-! ## Retention and the end of the run -/

/-- `if len(status.Recents) > 200 { status.Recents = status.Recents[2:] }`. -/
def trimRecents (recents : List String) : List String :=
  if 200 < recents.length then recents.drop 2 else recents

inductive RunResult
  | saved (recents : List String)
  | abortedFetch (addr : String)
  | panickedDiscord (addr : String)
deriving DecidableEq, Repr

/-- The run from the ranked list on: the gate loop, then — only when the loop
falls through to the code after it — the trim and the single `SetStatus`
call. A fetch error (`return`) or a Discord panic leaves with no save. -/
def runAfterQuery (fetch : String → Option OpenSeaCollection)
    (discord : String → DiscordOutcome) (statusRecents : List String)
    (mintlist : List (String × Nat)) : RunResult :=
  match announceLoop fetch discord statusRecents [] mintlist with
  | ⟨recents, _, LoopExit.done⟩ => RunResult.saved (trimRecents recents)
  | ⟨_, _, LoopExit.fetchAbort addr⟩ => RunResult.abortedFetch addr
  | ⟨_, _, LoopExit.discordPanic addr⟩ => RunResult.panickedDiscord addr

/-- The list a run persists, when it persists one. -/
def savedRecents : RunResult → Option (List String)
  | RunResult.saved recents => some recents
  | RunResult.abortedFetch _ => none
  | RunResult.panickedDiscord _ => none

/-! ## State store (`GetStatus`)

`GetStatus` returns the zero-value `Status` when `GetObject` fails; when the
body is read, a failed `json.Unmarshal` also leaves the zero value (the error
is ignored). `blob` is the fetched body (`none` = `GetObject` error; a
`ReadAll` failure is a body the decoder rejects) and `decodeStatus` is the
JSON decoding. -/

def GetStatus (blob : Option String) (decodeStatus : String → Option Status) : Status :=
  match blob with
  | none => ⟨[]⟩
  | some body => (decodeStatus body).getD ⟨[]⟩

/-! ## Configuration guards

The four guards at the top of `processLogs`. Note the fourth guard: the
source reads `OPENSEA_API_KEY` into `openseaKey` but then tests `s3key == ""`
again, so an absent marketplace API key never aborts. -/

structure ProcessEnv where
  ethNetworkUrl : String
  s3Bucket : String
  s3FileKey : String
  openseaApiKey : String
deriving DecidableEq, Repr

def configCheck (env : ProcessEnv) : Bool :=
  if env.ethNetworkUrl = "" then false
  else if env.s3Bucket = "" then false
  else if env.s3FileKey = "" then false
  else if env.s3FileKey = "" then false
  else true

/-! ## Concrete fixtures used by witnesses and counterexamples -/

def goodCollection : OpenSeaCollection := ⟨"https://example.com", "example"⟩

def bareCollection : OpenSeaCollection := ⟨"", ""⟩

def fetchGood : String → Option OpenSeaCollection := fun _ => some goodCollection

def fetchNone : String → Option OpenSeaCollection := fun _ => none

def discordSent : String → DiscordOutcome := fun _ => DiscordOutcome.sent

def discordExecFails : String → DiscordOutcome :=
  fun _ => sendDiscordWebhook "1" "tok" true true true false

def decodeFail : String → Option Status := fun _ => none

/-! ## First sanity examples (concrete evaluation of the embedded code) -/

example :
    deduplicate
      [⟨"0xC1", [topicTransfer], "t1", 5⟩, ⟨"0xC2", [topicTransfer], "t1", 5⟩,
       ⟨"0xC3", [topicTransfer], "t2", 6⟩] =
      [⟨"0xC1", [topicTransfer], "t1", 5⟩, ⟨"0xC3", [topicTransfer], "t2", 6⟩] := by
  decide

example :
    mintKeep (fun _ => nullAddress)
      ⟨"0xC1", [topicTransfer, "a", "b", "c"], "t1", 5⟩ = true := by
  decide

example :
    mintKeep (fun _ => nullAddress) ⟨"0xC1", [topicTransfer, "a", "b"], "t1", 5⟩ = false := by
  decide

example : rankByWordCount [("a", 3), ("b", 7), ("c", 5)] = [("b", 7), ("c", 5), ("a", 3)] := by
  decide

example : callOut goodCollection "0xC1" 150 = true := by decide

example : callOut bareCollection "0xC1" 150 = false := by decide

example : callOut goodCollection contractENS2 150 = false := by decide

example :
    runAfterQuery fetchGood discordSent [] [("0xB", 150), ("0xC", 50)] =
      RunResult.saved ["0xB"] := by
  decide

example :
    runAfterQuery fetchNone discordSent [] [("0xA", 150)] = RunResult.abortedFetch "0xA" := by
  decide

example :
    runAfterQuery fetchGood discordExecFails [] [("0xA", 150)] =
      RunResult.panickedDiscord "0xA" := by
  decide

example : configCheck ⟨"url", "bucket", "key", ""⟩ = true := by decide

example : GetStatus none (fun _ => some ⟨["0xA"]⟩) = ⟨[]⟩ := by decide

/-! ## Deduplicator lemmas -/

theorem uniqueTransactions_sublist (logs : List LogEntry) (seen : List String) :
    (uniqueTransactions logs seen).Sublist logs := by
  induction logs generalizing seen with
  | nil => simp [uniqueTransactions]
  | cons l rest ih =>
    by_cases h : l.txHash ∈ seen
    · simp only [uniqueTransactions, if_pos h]
      exact (ih seen).cons l
    · simp only [uniqueTransactions, if_neg h]
      exact (ih _).cons₂ l

theorem txHash_not_seen_of_mem_uniqueTransactions {logs : List LogEntry} {seen : List String}
    {l : LogEntry} (hl : l ∈ uniqueTransactions logs seen) : l.txHash ∉ seen := by
  induction logs generalizing seen with
  | nil => simp [uniqueTransactions] at hl
  | cons v rest ih =>
    by_cases h : v.txHash ∈ seen
    · rw [uniqueTransactions, if_pos h] at hl
      exact ih hl
    · rw [uniqueTransactions, if_neg h] at hl
      rcases List.mem_cons.mp hl with rfl | hmem
      · exact h
      · intro hs
        exact ih hmem (List.mem_cons_of_mem _ hs)

theorem nodup_txHash_uniqueTransactions (logs : List LogEntry) (seen : List String) :
    ((uniqueTransactions logs seen).map LogEntry.txHash).Nodup := by
  induction logs generalizing seen with
  | nil => simp [uniqueTransactions]
  | cons v rest ih =>
    by_cases h : v.txHash ∈ seen
    · simp only [uniqueTransactions, if_pos h]
      exact ih seen
    · simp only [uniqueTransactions, if_neg h, List.map_cons, List.nodup_cons]
      refine ⟨?_, ih _⟩
      intro hmem
      rcases List.mem_map.mp hmem with ⟨l, hl, hh⟩
      exact txHash_not_seen_of_mem_uniqueTransactions hl (by rw [hh]; exact List.mem_cons_self _ _)

theorem mem_txHash_uniqueTransactions (logs : List LogEntry) (seen : List String) (h : String) :
    h ∈ (uniqueTransactions logs seen).map LogEntry.txHash ↔
      h ∈ logs.map LogEntry.txHash ∧ h ∉ seen := by
  induction logs generalizing seen with
  | nil => simp [uniqueTransactions]
  | cons v rest ih =>
    by_cases hv : v.txHash ∈ seen
    · simp only [uniqueTransactions, if_pos hv, List.map_cons, List.mem_cons]
      rw [ih]
      constructor
      · rintro ⟨hm, hs⟩
        exact ⟨Or.inr hm, hs⟩
      · rintro ⟨hm | hm, hs⟩
        · exact absurd (hm ▸ hv) hs
        · exact ⟨hm, hs⟩
    · simp only [uniqueTransactions, if_neg hv, List.map_cons, List.mem_cons]
      rw [ih]
      constructor
      · rintro (rfl | ⟨hm, hs⟩)
        · exact ⟨Or.inl rfl, hv⟩
        · exact ⟨Or.inr hm, fun hin => hs (List.mem_cons_of_mem _ hin)⟩
      · rintro ⟨rfl | hm, hs⟩
        · exact Or.inl rfl
        · by_cases heq : h = v.txHash
          · exact Or.inl heq
          · refine Or.inr ⟨hm, ?_⟩
            intro hc
            rcases List.mem_cons.mp hc with hc1 | hc2
            · exact heq hc1
            · exact hs hc2

theorem find?_of_mem_uniqueTransactions {logs : List LogEntry} {seen : List String}
    {l : LogEntry} (hl : l ∈ uniqueTransactions logs seen) :
    logs.find? (fun x => x.txHash == l.txHash) = some l := by
  induction logs generalizing seen with
  | nil => simp [uniqueTransactions] at hl
  | cons v rest ih =>
    by_cases hv : v.txHash ∈ seen
    · rw [uniqueTransactions, if_pos hv] at hl
      have hne : ¬(v.txHash = l.txHash) := by
        intro he
        exact txHash_not_seen_of_mem_uniqueTransactions hl (he ▸ hv)
      rw [List.find?_cons_of_neg _ (by simpa using hne)]
      exact ih hl
    · rw [uniqueTransactions, if_neg hv] at hl
      rcases List.mem_cons.mp hl with rfl | hmem
      · rw [List.find?_cons_of_pos _ (by simp)]
      · have hne : ¬(v.txHash = l.txHash) := by
          intro he
          exact txHash_not_seen_of_mem_uniqueTransactions hmem
            (he ▸ List.mem_cons_self _ _)
        rw [List.find?_cons_of_neg _ (by simpa using hne)]
        exact ih hmem

/-- Claim C7: over every input sequence of log entries, the Deduplicator keeps a
subsequence of the input (first-seen order preserved), the kept transaction
identifiers are pairwise distinct, an identifier appears in the output exactly
when it appears in the input, and every kept entry is the first entry of the
input bearing its identifier. -/
theorem C7_deduplicator_first_occurrence (logs : List LogEntry) :
    (deduplicate logs).Sublist logs ∧
    ((deduplicate logs).map LogEntry.txHash).Nodup ∧
    (∀ h : String, h ∈ logs.map LogEntry.txHash ↔ h ∈ (deduplicate logs).map LogEntry.txHash) ∧
    (∀ l ∈ deduplicate logs, logs.find? (fun x => x.txHash == l.txHash) = some l) := by
  refine ⟨uniqueTransactions_sublist logs [], nodup_txHash_uniqueTransactions logs [], ?_, ?_⟩
  · intro h
    rw [deduplicate, mem_txHash_uniqueTransactions]
    simp
  · intro l hl
    exact find?_of_mem_uniqueTransactions hl

/-- A closed instance of the C7 theorem at a concrete input. -/
theorem C7_witness :
    (deduplicate [⟨"0xC1", [topicTransfer], "t1", 5⟩, ⟨"0xC2", [topicTransfer], "t1", 5⟩]).Sublist
        [⟨"0xC1", [topicTransfer], "t1", 5⟩, ⟨"0xC2", [topicTransfer], "t1", 5⟩] ∧
    ((deduplicate [⟨"0xC1", [topicTransfer], "t1", 5⟩,
        ⟨"0xC2", [topicTransfer], "t1", 5⟩]).map LogEntry.txHash).Nodup :=
  ⟨(C7_deduplicator_first_occurrence _).1, (C7_deduplicator_first_occurrence _).2.1⟩

/-! ## Mint Filter lemmas -/

theorem mintKeep_eq_true_iff (decodeFrom : String → String) (l : LogEntry) :
    mintKeep decodeFrom l = true ↔
      l.topics.headD "" = topicTransfer ∧ 4 ≤ l.topics.length ∧
      ¬(l.address = contractAddressOpenSea ∨ l.address = contractENS ∨
          l.address = contractENS2) ∧
      decodeFrom ((l.topics.get? 1).getD "") = nullAddress := by
  unfold mintKeep
  by_cases h1 : l.topics.headD "" = topicTransfer
  · by_cases h2 : l.topics.length < 4
    · simp [h1, h2]
    · by_cases h3 : l.address = contractAddressOpenSea ∨ l.address = contractENS ∨
          l.address = contractENS2
      · simp [h1, h2, h3]
      · simp [h1, h2, h3, Nat.not_lt.mp h2]
  · simp [h1]

/-- Claim C8: over every deduplicated sequence, the Mint Filter output is a
subsequence of its input, and every kept entry has the transfer signature as
its first topic, at least 4 topics, an origin (decoded from the second topic)
equal to the null address, and a contract address outside the OpenSea/ENS
denylist. The filter is a total function: an entry failing any guard is
dropped, never an error. -/
theorem C8_mint_filter_subset (decodeFrom : String → String) (logs : List LogEntry) :
    (mintFilter decodeFrom logs).Sublist logs ∧
    (∀ l ∈ mintFilter decodeFrom logs,
      l.topics.headD "" = topicTransfer ∧ 4 ≤ l.topics.length ∧
      decodeFrom ((l.topics.get? 1).getD "") = nullAddress ∧
      l.address ≠ contractAddressOpenSea ∧ l.address ≠ contractENS ∧
      l.address ≠ contractENS2) := by
  refine ⟨List.filter_sublist logs, ?_⟩
  intro l hl
  have hk : mintKeep decodeFrom l = true := List.of_mem_filter hl
  rcases (mintKeep_eq_true_iff decodeFrom l).mp hk with ⟨h1, h2, h3, h4⟩
  push_neg at h3
  exact ⟨h1, h2, h4, h3.1, h3.2.1, h3.2.2⟩

/-- A closed instance of the C8 theorem at a concrete input. -/
theorem C8_witness :
    (mintFilter (fun _ => nullAddress)
        [⟨"0xC1", [topicTransfer, "a", "b", "c"], "t1", 5⟩]).Sublist
      [⟨"0xC1", [topicTransfer, "a", "b", "c"], "t1", 5⟩] ∧
    ∀ l ∈ mintFilter (fun _ => nullAddress)
        [⟨"0xC1", [topicTransfer, "a", "b", "c"], "t1", 5⟩],
      l.topics.headD "" = topicTransfer ∧ 4 ≤ l.topics.length ∧
      (fun _ : String => nullAddress) ((l.topics.get? 1).getD "") = nullAddress ∧
      l.address ≠ contractAddressOpenSea ∧ l.address ≠ contractENS ∧
      l.address ≠ contractENS2 :=
  C8_mint_filter_subset (fun _ => nullAddress) [⟨"0xC1", [topicTransfer, "a", "b", "c"], "t1", 5⟩]

/-! ## Aggregator and Ranker lemmas -/

theorem sumCounts_bumpCount (m : List (String × Nat)) (a : String) :
    sumCounts (bumpCount m a) = sumCounts m + 1 := by
  induction m with
  | nil => simp [bumpCount, sumCounts]
  | cons p rest ih =>
    obtain ⟨k, v⟩ := p
    by_cases h : k = a
    · simp [bumpCount, h, sumCounts]
      omega
    · simp only [bumpCount, if_neg h, sumCounts, List.map_cons, List.sum_cons] at *
      omega

theorem sumCounts_countMintsGo (decodeFrom : String → String) (logs : List LogEntry)
    (acc : List (String × Nat)) :
    sumCounts (countMintsGo decodeFrom logs acc) =
      sumCounts acc + (mintFilter decodeFrom logs).length := by
  induction logs generalizing acc with
  | nil => simp [countMintsGo, mintFilter]
  | cons l rest ih =>
    by_cases h : mintKeep decodeFrom l = true
    · have e1 : countMintsGo decodeFrom (l :: rest) acc =
          countMintsGo decodeFrom rest (bumpCount acc l.address) := by
        simp [countMintsGo, h]
      have e2 : mintFilter decodeFrom (l :: rest) = l :: mintFilter decodeFrom rest := by
        simp [mintFilter, List.filter_cons, h]
      rw [e1, e2, ih, sumCounts_bumpCount, List.length_cons]
      omega
    · have e1 : countMintsGo decodeFrom (l :: rest) acc = countMintsGo decodeFrom rest acc := by
        simp [countMintsGo, h]
      have e2 : mintFilter decodeFrom (l :: rest) = mintFilter decodeFrom rest := by
        simp [mintFilter, List.filter_cons, h]
      rw [e1, e2, ih]

theorem sumCounts_perm {m₁ m₂ : List (String × Nat)} (h : m₁.Perm m₂) :
    sumCounts m₁ = sumCounts m₂ :=
  (h.map Prod.snd).sum_eq

theorem rankByWordCount_perm (m : List (String × Nat)) : (rankByWordCount m).Perm m :=
  List.perm_insertionSort countGE m

theorem rankByWordCount_sorted (m : List (String × Nat)) :
    List.Sorted countGE (rankByWordCount m) :=
  List.sorted_insertionSort countGE m

/-- Claim C9: over every filtered mint sequence, the per-contract counts in the
ranked output sum to the number of filtered entries, and the ranked output is
sorted non-increasing by count (`countGE p q` is `q.2 ≤ p.2`). -/
theorem C9_rank_sum_and_sorted (decodeFrom : String → String) (logs : List LogEntry) :
    sumCounts (rankByWordCount (countMints decodeFrom logs)) =
      (mintFilter decodeFrom logs).length ∧
    List.Sorted countGE (rankByWordCount (countMints decodeFrom logs)) := by
  constructor
  · rw [sumCounts_perm (rankByWordCount_perm _), countMints, sumCounts_countMintsGo]
    simp [sumCounts]
  · exact rankByWordCount_sorted _

/-- A closed instance of the C9 theorem at a concrete input. -/
theorem C9_witness :
    sumCounts (rankByWordCount (countMints (fun _ => nullAddress)
        [⟨"0xC1", [topicTransfer, "a", "b", "c"], "t1", 5⟩,
         ⟨"0xC2", [topicTransfer, "a", "b"], "t2", 5⟩])) =
      (mintFilter (fun _ => nullAddress)
        [⟨"0xC1", [topicTransfer, "a", "b", "c"], "t1", 5⟩,
         ⟨"0xC2", [topicTransfer, "a", "b"], "t2", 5⟩]).length ∧
    List.Sorted countGE (rankByWordCount (countMints (fun _ => nullAddress)
        [⟨"0xC1", [topicTransfer, "a", "b", "c"], "t1", 5⟩,
         ⟨"0xC2", [topicTransfer, "a", "b"], "t2", 5⟩])) :=
  C9_rank_sum_and_sorted (fun _ => nullAddress) _

/-! ## Announcement Gate lemmas -/

theorem alreadyPosted_append_false {r t : List String} {a : String}
    (h : alreadyPosted (r ++ t) a = false) : alreadyPosted r a = false := by
  unfold alreadyPosted at h ⊢
  rw [List.any_append, Bool.or_eq_false_iff] at h
  exact h.1

/-- The notified list only grows: whatever is notified at entry to the loop is
notified in its result. -/
theorem notified_grows (fetch : String → Option OpenSeaCollection)
    (discord : String → DiscordOutcome) (ml : List (String × Nat))
    (recents notified : List String) :
    ∃ extra, (announceLoop fetch discord recents notified ml).notified = notified ++ extra := by
  induction ml generalizing recents notified with
  | nil => exact ⟨[], by simp [announceLoop]⟩
  | cons p rest ih =>
    obtain ⟨key, value⟩ := p
    rw [announceLoop]
    by_cases h1 : 100 < value
    · rw [if_pos h1]
      by_cases h2 : alreadyPosted recents key = true
      · rw [if_pos h2]
        exact ih recents notified
      · rw [if_neg h2]
        cases hf : fetch key with
        | none => exact ⟨[], by simp⟩
        | some collection =>
          dsimp only
          by_cases h3 : callOut collection key value = true
          · rw [if_pos h3]
            by_cases h4 : discord key = DiscordOutcome.panicked
            · rw [if_pos h4]
              exact ⟨[key], rfl⟩
            · rw [if_neg h4]
              obtain ⟨e, he⟩ := ih (recents ++ [key]) (notified ++ [key])
              exact ⟨[key] ++ e, by rw [he, List.append_assoc]⟩
          · rw [if_neg h3]
            exact ih recents notified
    · rw [if_neg h1]
      exact ih recents notified

theorem mem_notified_of_mem (fetch : String → Option OpenSeaCollection)
    (discord : String → DiscordOutcome) (ml : List (String × Nat))
    (recents notified : List String) {a : String} (ha : a ∈ notified) :
    a ∈ (announceLoop fetch discord recents notified ml).notified := by
  obtain ⟨e, he⟩ := notified_grows fetch discord ml recents notified
  rw [he]
  exact List.mem_append_left _ ha

/-- Every address notified by the loop either was notified at entry or names a
ranked entry that cleared the threshold, was absent from the entry recents
list, fetched successfully, and was accepted by the Callout Decision. -/
theorem mem_notified_characterization (fetch : String → Option OpenSeaCollection)
    (discord : String → DiscordOutcome) (ml : List (String × Nat))
    (recents notified : List String) {a : String}
    (ha : a ∈ (announceLoop fetch discord recents notified ml).notified) :
    a ∈ notified ∨
      (alreadyPosted recents a = false ∧
        ∃ v, (a, v) ∈ ml ∧ 100 < v ∧
          ∃ c, fetch a = some c ∧ callOut c a v = true) := by
  induction ml generalizing recents notified with
  | nil =>
    simp only [announceLoop] at ha
    exact Or.inl ha
  | cons p rest ih =>
    obtain ⟨key, value⟩ := p
    rw [announceLoop] at ha
    by_cases h1 : 100 < value
    · rw [if_pos h1] at ha
      by_cases h2 : alreadyPosted recents key = true
      · rw [if_pos h2] at ha
        rcases ih recents notified ha with hn | ⟨hr, v, hv, hlt, c, hc, hco⟩
        · exact Or.inl hn
        · exact Or.inr ⟨hr, v, List.mem_cons_of_mem _ hv, hlt, c, hc, hco⟩
      · rw [if_neg h2] at ha
        have h2f : alreadyPosted recents key = false := by
          cases hx : alreadyPosted recents key with
          | false => rfl
          | true => exact absurd hx h2
        cases hf : fetch key with
        | none =>
          rw [hf] at ha
          exact Or.inl ha
        | some collection =>
          rw [hf] at ha
          dsimp only at ha
          by_cases h3 : callOut collection key value = true
          · rw [if_pos h3] at ha
            by_cases h4 : discord key = DiscordOutcome.panicked
            · rw [if_pos h4] at ha
              dsimp only at ha
              rcases List.mem_append.mp ha with hn | hk
              · exact Or.inl hn
              · have : a = key := by simpa using hk
                subst this
                exact Or.inr ⟨h2f, value, List.mem_cons_self _ _, h1, collection, hf, h3⟩
            · rw [if_neg h4] at ha
              rcases ih (recents ++ [key]) (notified ++ [key]) ha with hn | ⟨hr, v, hv, hlt, c, hc, hco⟩
              · rcases List.mem_append.mp hn with hn' | hk
                · exact Or.inl hn'
                · have : a = key := by simpa using hk
                  subst this
                  exact Or.inr ⟨h2f, value, List.mem_cons_self _ _, h1, collection, hf, h3⟩
              · exact Or.inr
                  ⟨alreadyPosted_append_false hr, v, List.mem_cons_of_mem _ hv, hlt, c, hc, hco⟩
          · rw [if_neg h3] at ha
            rcases ih recents notified ha with hn | ⟨hr, v, hv, hlt, c, hc, hco⟩
            · exact Or.inl hn
            · exact Or.inr ⟨hr, v, List.mem_cons_of_mem _ hv, hlt, c, hc, hco⟩
    · rw [if_neg h1] at ha
      rcases ih recents notified ha with hn | ⟨hr, v, hv, hlt, c, hc, hco⟩
      · exact Or.inl hn
      · exact Or.inr ⟨hr, v, List.mem_cons_of_mem _ hv, hlt, c, hc, hco⟩

/-- Every address in the loop's final recents list either was in the entry
recents list or was notified by the loop: only attempted call-outs are
recorded. -/
theorem mem_recents_characterization (fetch : String → Option OpenSeaCollection)
    (discord : String → DiscordOutcome) (ml : List (String × Nat))
    (recents notified : List String) {a : String}
    (ha : a ∈ (announceLoop fetch discord recents notified ml).recents) :
    a ∈ recents ∨ a ∈ (announceLoop fetch discord recents notified ml).notified := by
  induction ml generalizing recents notified with
  | nil =>
    simp only [announceLoop] at ha ⊢
    exact Or.inl ha
  | cons p rest ih =>
    obtain ⟨key, value⟩ := p
    rw [announceLoop] at ha ⊢
    by_cases h1 : 100 < value
    · rw [if_pos h1] at ha ⊢
      by_cases h2 : alreadyPosted recents key = true
      · rw [if_pos h2] at ha ⊢
        exact ih recents notified ha
      · rw [if_neg h2] at ha ⊢
        cases hf : fetch key with
        | none =>
          rw [hf] at ha
          dsimp only at ha ⊢
          exact Or.inl ha
        | some collection =>
          rw [hf] at ha
          dsimp only at ha ⊢
          by_cases h3 : callOut collection key value = true
          · rw [if_pos h3] at ha ⊢
            by_cases h4 : discord key = DiscordOutcome.panicked
            · rw [if_pos h4] at ha ⊢
              exact Or.inl ha
            · rw [if_neg h4] at ha ⊢
              rcases ih (recents ++ [key]) (notified ++ [key]) ha with hr | hn
              · rcases List.mem_append.mp hr with hr' | hk
                · exact Or.inl hr'
                · refine Or.inr (mem_notified_of_mem fetch discord rest _ _ ?_)
                  exact List.mem_append_right _ hk
              · exact Or.inr hn
          · rw [if_neg h3] at ha ⊢
            exact ih recents notified ha
    · rw [if_neg h1] at ha ⊢
      exact ih recents notified ha

/-! ## Loop exit and run lemmas -/

theorem announceLoop_exit_done (fetch : String → Option OpenSeaCollection)
    (discord : String → DiscordOutcome)
    (hf : ∀ a, (fetch a).isSome = true)
    (hd : ∀ a, discord a ≠ DiscordOutcome.panicked) (ml : List (String × Nat)) :
    ∀ recents notified,
      (announceLoop fetch discord recents notified ml).exit = LoopExit.done := by
  induction ml with
  | nil =>
    intro r n
    simp [announceLoop]
  | cons p rest ih =>
    intro r n
    obtain ⟨key, value⟩ := p
    rw [announceLoop]
    by_cases h1 : 100 < value
    · rw [if_pos h1]
      by_cases h2 : alreadyPosted r key = true
      · rw [if_pos h2]
        exact ih r n
      · rw [if_neg h2]
        cases hfk : fetch key with
        | none =>
          have hx := hf key
          rw [hfk] at hx
          simp at hx
        | some collection =>
          dsimp only
          by_cases h3 : callOut collection key value = true
          · rw [if_pos h3, if_neg (hd key)]
            exact ih _ _
          · rw [if_neg h3]
            exact ih r n
    · rw [if_neg h1]
      exact ih r n

theorem announceLoop_exit_no_panic (fetch : String → Option OpenSeaCollection)
    (discord : String → DiscordOutcome)
    (hd : ∀ a, discord a ≠ DiscordOutcome.panicked) (ml : List (String × Nat)) :
    ∀ recents notified,
      (announceLoop fetch discord recents notified ml).exit = LoopExit.done ∨
      ∃ a, (announceLoop fetch discord recents notified ml).exit = LoopExit.fetchAbort a := by
  induction ml with
  | nil =>
    intro r n
    exact Or.inl (by simp [announceLoop])
  | cons p rest ih =>
    intro r n
    obtain ⟨key, value⟩ := p
    rw [announceLoop]
    by_cases h1 : 100 < value
    · rw [if_pos h1]
      by_cases h2 : alreadyPosted r key = true
      · rw [if_pos h2]
        exact ih r n
      · rw [if_neg h2]
        cases hfk : fetch key with
        | none => exact Or.inr ⟨key, rfl⟩
        | some collection =>
          dsimp only
          by_cases h3 : callOut collection key value = true
          · rw [if_pos h3, if_neg (hd key)]
            exact ih _ _
          · rw [if_neg h3]
            exact ih r n
    · rw [if_neg h1]
      exact ih r n

theorem announceLoop_done_eq {fetch : String → Option OpenSeaCollection}
    {discord : String → DiscordOutcome} {s n : List String} {ml : List (String × Nat)}
    (h : (announceLoop fetch discord s n ml).exit = LoopExit.done) :
    announceLoop fetch discord s n ml =
      ⟨(announceLoop fetch discord s n ml).recents,
        (announceLoop fetch discord s n ml).notified, LoopExit.done⟩ := by
  cases hout : announceLoop fetch discord s n ml with
  | mk r nn e =>
    rw [hout] at h
    dsimp only at h
    subst h
    rfl

theorem runAfterQuery_saved_of_done {fetch : String → Option OpenSeaCollection}
    {discord : String → DiscordOutcome} {s : List String} {ml : List (String × Nat)}
    {r n : List String}
    (h : announceLoop fetch discord s [] ml = ⟨r, n, LoopExit.done⟩) :
    runAfterQuery fetch discord s ml = RunResult.saved (trimRecents r) := by
  unfold runAfterQuery
  rw [h]

theorem runAfterQuery_abort_of_fetchAbort {fetch : String → Option OpenSeaCollection}
    {discord : String → DiscordOutcome} {s : List String} {ml : List (String × Nat)}
    {a : String} {r n : List String}
    (h : announceLoop fetch discord s [] ml = ⟨r, n, LoopExit.fetchAbort a⟩) :
    runAfterQuery fetch discord s ml = RunResult.abortedFetch a := by
  unfold runAfterQuery
  rw [h]

theorem runAfterQuery_saved_of_ok (fetch : String → Option OpenSeaCollection)
    (discord : String → DiscordOutcome) (s : List String) (ml : List (String × Nat))
    (hf : ∀ a, (fetch a).isSome = true)
    (hd : ∀ a, discord a ≠ DiscordOutcome.panicked) :
    runAfterQuery fetch discord s ml =
      RunResult.saved (trimRecents (announceLoop fetch discord s [] ml).recents) :=
  runAfterQuery_saved_of_done
    (announceLoop_done_eq (announceLoop_exit_done fetch discord hf hd ml s []))

/-! ## Retention lemmas -/

theorem trimRecents_of_gt {r : List String} (h : 200 < r.length) :
    trimRecents r = r.drop 2 := by
  rw [trimRecents, if_pos h]

theorem trimRecents_of_le {r : List String} (h : r.length ≤ 200) : trimRecents r = r := by
  rw [trimRecents, if_neg (by omega)]

theorem trimRecents_sublist (r : List String) : (trimRecents r).Sublist r := by
  rw [trimRecents]
  split
  · exact List.drop_sublist 2 r
  · exact List.Sublist.refl r

theorem trimRecents_length_le (r : List String) :
    (trimRecents r).length ≤ max 200 (r.length - 2) := by
  rw [trimRecents]
  split
  · rw [List.length_drop]
    omega
  · omega

theorem mem_take_of_not_mem_trim {r : List String} {a : String}
    (ha : a ∈ r) (hn : a ∉ trimRecents r) : a ∈ r.take 2 ∧ 200 < r.length := by
  by_cases h : 200 < r.length
  · refine ⟨?_, h⟩
    rw [trimRecents_of_gt h] at hn
    have hsplit : a ∈ r.take 2 ++ r.drop 2 := by
      rw [List.take_append_drop]
      exact ha
    rcases List.mem_append.mp hsplit with h1 | h2
    · exact h1
    · exact absurd h2 hn
  · rw [trimRecents_of_le (by omega)] at hn
    exact absurd ha hn

/-! ## Claim theorems for the run-level behaviour -/

/-- Claim C1 (amended): past configuration checks and the log query, the final
state is persisted exactly once whenever the announcement loop runs to
completion — in particular whenever every metadata fetch succeeds and no
Discord execute call panics, and even when no new contract was announced —
but a metadata fetch failing mid-loop makes `processLogs` return early,
skipping the remaining candidates AND the save. -/
theorem C1_save_iff_loop_completes (fetch : String → Option OpenSeaCollection)
    (discord : String → DiscordOutcome) (s : List String) (ml : List (String × Nat)) :
    ((∀ a, (fetch a).isSome = true) → (∀ a, discord a ≠ DiscordOutcome.panicked) →
      savedRecents (runAfterQuery fetch discord s ml) =
        some (trimRecents (announceLoop fetch discord s [] ml).recents)) ∧
    (∀ a r n, announceLoop fetch discord s [] ml = ⟨r, n, LoopExit.fetchAbort a⟩ →
      savedRecents (runAfterQuery fetch discord s ml) = none) := by
  constructor
  · intro hf hd
    rw [runAfterQuery_saved_of_ok fetch discord s ml hf hd]
    rfl
  · intro a r n h
    rw [runAfterQuery_abort_of_fetchAbort h]
    rfl

/-- A closed instance of the C1 theorem: a run with no qualifying contract
still ends in a save. -/
theorem C1_witness :
    savedRecents (runAfterQuery fetchGood discordSent [] [("0xZ", 5)]) =
      some (trimRecents (announceLoop fetchGood discordSent [] [] [("0xZ", 5)]).recents) :=
  (C1_save_iff_loop_completes fetchGood discordSent [] [("0xZ", 5)]).1
    (fun _ => rfl) (fun _ h => by simp [discordSent] at h)

/-- Claim C1 counterexample: with one candidate over threshold and a failing
metadata fetch, the run ends in `abortedFetch` and nothing is saved — the
claim said the save still happens. -/
theorem C1_counterexample :
    runAfterQuery fetchNone discordSent [] [("0xA", 150)] = RunResult.abortedFetch "0xA" ∧
    savedRecents (runAfterQuery fetchNone discordSent [] [("0xA", 150)]) = none := by
  decide

/-- Claim C2 (amended): a saved list is the loop's pre-save list with exactly
its 2 front entries dropped when that list is longer than 200, unchanged
otherwise; its length is bounded by `max 200 (pre-save length - 2)` — which
can exceed 200 — and an entry disappears only from the front, only when the
pre-save list is over the cap. -/
theorem C2_saved_list_structure (fetch : String → Option OpenSeaCollection)
    (discord : String → DiscordOutcome) (s : List String) (ml : List (String × Nat))
    (out : List String)
    (h : runAfterQuery fetch discord s ml = RunResult.saved out) :
    ∃ r, out = trimRecents r ∧ (trimRecents r).Sublist r ∧
      (trimRecents r).length ≤ max 200 (r.length - 2) ∧
      (200 < r.length → trimRecents r = r.drop 2) ∧
      (r.length ≤ 200 → trimRecents r = r) ∧
      (∀ a, a ∈ r → a ∉ trimRecents r → a ∈ r.take 2 ∧ 200 < r.length) := by
  unfold runAfterQuery at h
  cases hout : announceLoop fetch discord s [] ml with
  | mk r n e =>
    rw [hout] at h
    cases e with
    | done =>
      dsimp only at h
      refine ⟨r, ?_, trimRecents_sublist r, trimRecents_length_le r,
        fun hh => trimRecents_of_gt hh, fun hh => trimRecents_of_le hh,
        fun a ha hn => mem_take_of_not_mem_trim ha hn⟩
      injection h with h'
      exact h'.symm
    | fetchAbort a =>
      dsimp only at h
      exact absurd h (by simp)
    | discordPanic a =>
      dsimp only at h
      exact absurd h (by simp)

/-- A closed instance of the C2 theorem at a concrete saved run. -/
theorem C2_witness :
    ∃ r, ["0xB"] = trimRecents r ∧ (trimRecents r).Sublist r ∧
      (trimRecents r).length ≤ max 200 (r.length - 2) ∧
      (200 < r.length → trimRecents r = r.drop 2) ∧
      (r.length ≤ 200 → trimRecents r = r) ∧
      (∀ a, a ∈ r → a ∉ trimRecents r → a ∈ r.take 2 ∧ 200 < r.length) :=
  C2_saved_list_structure fetchGood discordSent [] [("0xB", 150)] ["0xB"] (by decide)

set_option maxRecDepth 4000 in
/-- Claim C2 counterexample: a run whose loaded recents list has 203 entries
and announces nothing saves a 201-entry list — the persisted list exceeds the
200 cap, because the trim drops exactly 2 entries. -/
theorem C2_counterexample :
    runAfterQuery fetchGood discordSent (List.replicate 203 "0xA") [] =
      RunResult.saved (List.replicate 201 "0xA") ∧
    200 < (List.replicate 201 "0xA").length := by
  decide

/-- Claim C3, evaluated at the failing input: with the network URL, store
bucket and store key set but the marketplace API key absent, the guard chain
of `processLogs` passes (the fourth guard re-tests `s3key`, not `openseaKey`),
so the run does NOT abort; each genuinely guarded variable does abort when
absent. -/
theorem C3_config_guard_evaluation :
    configCheck ⟨"https://node.example", "bucket", "statefile", ""⟩ = true ∧
    configCheck ⟨"", "bucket", "statefile", "oskey"⟩ = false ∧
    configCheck ⟨"https://node.example", "", "statefile", "oskey"⟩ = false ∧
    configCheck ⟨"https://node.example", "bucket", "", "oskey"⟩ = false := by
  decide

/-- Claim C4 (amended): notifier outcomes other than a Discord execute panic
never abort the loop (only fetch errors do); `sendDiscordWebhook` reaches the
panicking outcome exactly when credentials are configured, the id parses, the
API and webhook lookups succeed and the execute call fails; and `sendTweetV2`
answers a provider failure with the logged `sendError` outcome exactly when
all four keys are configured and the create call fails — it has no aborting
outcome at all. -/
theorem C4_notifier_failure_policy (fetch : String → Option OpenSeaCollection)
    (discord : String → DiscordOutcome) (s : List String) (ml : List (String × Nat)) :
    ((∀ a, discord a ≠ DiscordOutcome.panicked) →
      (announceLoop fetch discord s [] ml).exit = LoopExit.done ∨
      ∃ a, (announceLoop fetch discord s [] ml).exit = LoopExit.fetchAbort a) ∧
    (∀ webhookId webhookToken parseOk newApiOk getOk execOk,
      sendDiscordWebhook webhookId webhookToken parseOk newApiOk getOk execOk =
          DiscordOutcome.panicked ↔
        ¬(webhookId = "" ∨ webhookToken = "") ∧ parseOk = true ∧ newApiOk = true ∧
          getOk = true ∧ execOk = false) ∧
    (∀ (twitKey : TwitterKeys) (createTweetOk : Bool),
      sendTweetV2 twitKey createTweetOk = TweetOutcome.sendError ↔
        ¬twitKey.consumerKey = "" ∧ ¬twitKey.consumerSecret = "" ∧
          ¬twitKey.token = "" ∧ ¬twitKey.tokenSecret = "" ∧ createTweetOk = false) := by
  refine ⟨fun hd => announceLoop_exit_no_panic fetch discord hd ml s [], ?_, ?_⟩
  · intro webhookId webhookToken parseOk newApiOk getOk execOk
    unfold sendDiscordWebhook
    by_cases h0 : webhookId = "" ∨ webhookToken = ""
    · simp [h0]
    · cases parseOk <;> cases newApiOk <;> cases getOk <;> cases execOk <;> simp [h0]
  · intro twitKey createTweetOk
    unfold sendTweetV2
    by_cases h1 : twitKey.consumerKey = ""
    · simp [h1]
    · by_cases h2 : twitKey.consumerSecret = ""
      · simp [h1, h2]
      · by_cases h3 : twitKey.token = ""
        · simp [h1, h2, h3]
        · by_cases h4 : twitKey.tokenSecret = ""
          · simp [h1, h2, h3, h4]
          · cases createTweetOk <;> simp [h1, h2, h3, h4]

/-- A closed instance of the C4 theorem: with a never-panicking Discord
outcome the loop completes or stops only for a fetch error. -/
theorem C4_witness :
    (announceLoop fetchGood discordSent [] [] [("0xC", 150)]).exit = LoopExit.done ∨
    ∃ a, (announceLoop fetchGood discordSent [] [] [("0xC", 150)]).exit =
      LoopExit.fetchAbort a :=
  (C4_notifier_failure_policy fetchGood discordSent [] [("0xC", 150)]).1
    (fun _ h => by simp [discordSent] at h)

/-- Claim C4 counterexample: a Discord send failure at the execute step
(`wa.Execute` error) panics, aborting the whole run and the save — the claim
said a Discord send failure is logged and does not abort the run. -/
theorem C4_counterexample :
    discordExecFails "0xB" = DiscordOutcome.panicked ∧
    runAfterQuery fetchGood discordExecFails [] [("0xB", 150)] =
      RunResult.panickedDiscord "0xB" ∧
    savedRecents (runAfterQuery fetchGood discordExecFails [] [("0xB", 150)]) = none := by
  decide

/-- Claim C5: an address receives a notification attempt only when some ranked
entry names it with a count strictly over 100, it is absent from the loaded
recents list (exact match, empty entries ignored), its metadata fetch
succeeded and the Callout Decision accepted it; and every address in the
final recents list was either already loaded or was notified — a rejected
call-out appends nothing. -/
theorem C5_gate_qualification_and_callout (fetch : String → Option OpenSeaCollection)
    (discord : String → DiscordOutcome) (s : List String) (ml : List (String × Nat))
    (a : String) :
    (a ∈ (announceLoop fetch discord s [] ml).notified →
      alreadyPosted s a = false ∧
      ∃ v, (a, v) ∈ ml ∧ 100 < v ∧ ∃ c, fetch a = some c ∧ callOut c a v = true) ∧
    (a ∈ (announceLoop fetch discord s [] ml).recents →
      a ∈ s ∨ a ∈ (announceLoop fetch discord s [] ml).notified) := by
  constructor
  · intro ha
    rcases mem_notified_characterization fetch discord ml s [] ha with hn | h
    · simp at hn
    · exact h
  · intro ha
    exact mem_recents_characterization fetch discord ml s [] ha

/-- A closed instance of the C5 theorem: a notified address with its
qualification facts. -/
theorem C5_witness :
    ("0xB" ∈ (announceLoop fetchGood discordSent [] [] [("0xB", 150)]).notified) ∧
    (alreadyPosted [] "0xB" = false ∧
      ∃ v, ("0xB", v) ∈ [("0xB", 150)] ∧ 100 < v ∧
        ∃ c, fetchGood "0xB" = some c ∧ callOut c "0xB" v = true) :=
  ⟨by decide,
    (C5_gate_qualification_and_callout fetchGood discordSent [] [("0xB", 150)] "0xB").1
      (by decide)⟩

/-- Claim C6: a completed loop saves exactly `trimRecents` of its final list;
when the pre-save list is longer than 200 the trim drops exactly the 2 front
entries (so the length shrinks by exactly 2 and the rest survives in order),
and a list of length at most 200 is saved unchanged. -/
theorem C6_fixed_two_element_trim (fetch : String → Option OpenSeaCollection)
    (discord : String → DiscordOutcome) (s : List String) (ml : List (String × Nat))
    (r n : List String) :
    (announceLoop fetch discord s [] ml = ⟨r, n, LoopExit.done⟩ →
      runAfterQuery fetch discord s ml = RunResult.saved (trimRecents r)) ∧
    (200 < r.length →
      trimRecents r = r.drop 2 ∧ (trimRecents r).length + 2 = r.length ∧
      r.take 2 ++ trimRecents r = r) ∧
    (r.length ≤ 200 → trimRecents r = r) := by
  refine ⟨fun h => runAfterQuery_saved_of_done h, fun h => ?_, fun h => trimRecents_of_le h⟩
  rw [trimRecents_of_gt h]
  refine ⟨rfl, ?_, List.take_append_drop 2 r⟩
  rw [List.length_drop]
  omega

set_option maxRecDepth 4000 in
/-- A closed instance of the C6 theorem on a 203-entry list. -/
theorem C6_witness :
    trimRecents (List.replicate 203 "0xA") = (List.replicate 203 "0xA").drop 2 ∧
    (trimRecents (List.replicate 203 "0xA")).length + 2 =
      (List.replicate 203 "0xA").length ∧
    (List.replicate 203 "0xA").take 2 ++ trimRecents (List.replicate 203 "0xA") =
      List.replicate 203 "0xA" :=
  (C6_fixed_two_element_trim fetchGood discordSent [] [] (List.replicate 203 "0xA") []).2.1
    (by decide)

/-- Claim C10 (amended): any load failure — a get error, or a body the decoder
rejects — yields the zero-value `Status`, so the invocation proceeds with an
empty recents list; and when the loop then completes (every fetch succeeds, no
Discord panic), the run saves the freshly built list, overwriting the
previously persisted recents. -/
theorem C10_load_failure_fresh_state (decodeStatus : String → Option Status)
    (body : String) (fetch : String → Option OpenSeaCollection)
    (discord : String → DiscordOutcome) (ml : List (String × Nat)) :
    GetStatus none decodeStatus = ⟨[]⟩ ∧
    (decodeStatus body = none → GetStatus (some body) decodeStatus = ⟨[]⟩) ∧
    ((∀ a, (fetch a).isSome = true) → (∀ a, discord a ≠ DiscordOutcome.panicked) →
      savedRecents (runAfterQuery fetch discord (GetStatus none decodeStatus).recents ml) =
        some (trimRecents (announceLoop fetch discord [] [] ml).recents)) := by
  refine ⟨rfl, fun h => by simp [GetStatus, h], fun hf hd => ?_⟩
  have hrec : (GetStatus none decodeStatus).recents = [] := rfl
  rw [hrec, runAfterQuery_saved_of_ok fetch discord [] ml hf hd]
  rfl

/-- A closed instance of the C10 theorem at a failing decode. -/
theorem C10_witness :
    savedRecents (runAfterQuery fetchGood discordSent (GetStatus none decodeFail).recents
        [("0xZ", 5)]) =
      some (trimRecents (announceLoop fetchGood discordSent [] [] [("0xZ", 5)]).recents) :=
  (C10_load_failure_fresh_state decodeFail "garbage" fetchGood discordSent [("0xZ", 5)]).2.2
    (fun _ => rfl) (fun _ h => by simp [discordSent] at h)

/-- Claim C10 counterexample: a run whose load failed and whose loop then hits
a metadata-fetch error saves nothing at all — the previously persisted recents
are NOT overwritten, against the claimed unconditional save. -/
theorem C10_counterexample :
    GetStatus none decodeFail = ⟨[]⟩ ∧
    savedRecents (runAfterQuery fetchNone discordSent (GetStatus none decodeFail).recents
        [("0xA", 150)]) = none := by
  decide

end NftMintAlert
